import Mathlib

/-!
Shallow embedding of `src/wordgrid.py` (word-grid puzzle helper).

Modelling conventions:
* Python strings are `List Char`.
* A numpy `dtype=str` (`'<U1'`) array entry holds zero or one characters, so a
  grid cell is a `List Char` of length at most 1; `np.empty` initialises every
  entry to the empty string `[]`.
* The backing numpy array is a `List (List Cell)`; out-of-range accesses
  (IndexError / ValueError) are modelled by `Option`, `none` meaning the Python
  code raises.  Negative indices wrap once, as in numpy.
* Python `set` objects are modelled as lists; the program only ever observes
  sets through membership, so a list is an observationally faithful model.
* The word-list file is modelled as the list of its lines.
-/

abbrev Cell := List Char

/-- Resolve a (possibly negative) numpy index against an axis of length `len`:
negative indices wrap once, anything still out of range is an error. -/
def npIdx (len : Nat) (i : Int) : Option Nat :=
  let i' := if i < 0 then i + len else i
  if 0 ≤ i' ∧ i' < len then some i'.toNat else none

/-- Reading `a[row, col]` on the backing array: `none` models an `IndexError`. -/
def getCell (a : List (List Cell)) (row col : Int) : Option Cell := do
  let r ← npIdx a.length row
  let rowl ← a[r]?
  let c ← npIdx rowl.length col
  rowl[c]?

/-- Writing `a[row, :] = vals` on the backing array.  numpy accepts the assignment when
the value list matches the row length exactly, or has length 1 (broadcast);
anything else raises a `ValueError` (`none`).  Each stored entry is truncated
to one character (`'<U1'`). -/
def npSetRow (a : List (List Cell)) (row : Int) (vals : List Cell) :
    Option (List (List Cell)) := do
  let r ← npIdx a.length row
  let old ← a[r]?
  let newRow ←
    match vals with
    | [v] => some (List.replicate old.length v)
    | _ => if vals.length = old.length then some vals else none
  some (a.set r (newRow.map (List.take 1)))

/-- Model of `class WordGrid` (src/wordgrid.py:117): the backing numpy array plus the
`rows`/`cols` attributes. -/
structure WordGrid where
  grid : List (List Cell)
  rows : Nat
  cols : Nat
  deriving DecidableEq

namespace WordGrid

/-- Model of `WordGrid.__init__(m, n)`: note the source allocates
`np.empty(shape=(n, n), dtype=str)` — an `n × n` array — while recording
`rows = m`, `cols = n`. -/
def init (m n : Nat) : WordGrid :=
  { grid := List.replicate n (List.replicate n ([] : Cell)), rows := m, cols := n }

/-- Model of `WordGrid.is_valid_index`. -/
def is_valid_index (g : WordGrid) (row col : Int) : Bool :=
  decide (0 ≤ row ∧ row < g.rows ∧ 0 ≤ col ∧ col < g.cols)

/-- Model of `WordGrid.get_element`. -/
def get_element (g : WordGrid) (row col : Int) : Option Cell :=
  getCell g.grid row col

/-- Model of `WordGrid.update_gridline_from_string`.  The guard compares the string's
length with `self.rows`; on a mismatch it only prints a warning and leaves the
grid unchanged.  When the guard passes, the numpy row assignment itself may
still raise (`none`). -/
def update_gridline_from_string (g : WordGrid) (row : Int) (s : List Char) :
    Option WordGrid :=
  if s.length = g.rows then
    (npSetRow g.grid row (s.map (fun c => [c]))).map (fun a => { g with grid := a })
  else
    some g

/-- Model of `WordGrid.lettercount`: `Counter(self.grid.flatten())`, as the counting
function of the multiset of all cell values (a `Counter` maps each absent key
to 0, and `key in counter` is equivalent to a positive count). -/
def lettercount (g : WordGrid) : Cell → Nat :=
  fun s => g.grid.flatten.count s

/-- Model of `WordGrid.get_neighbours_index`: the two nested loops over offsets
`i, j ∈ {-1, 0, 1}`. -/
def get_neighbours_index (g : WordGrid) (row col : Int) : List (Int × Int) :=
  (([-1, 0, 1] : List Int).map (fun i =>
    ([-1, 0, 1] : List Int).filterMap (fun j =>
      if g.is_valid_index (row + i) (col + j) ∧ ¬(i = 0 ∧ j = 0) then
        some (row + i, col + j)
      else none))).flatten

/-- Inner loop of `WordGrid.get_two_neighbours`: append `gram + letter(item)`
for each second-hop neighbour `item`. -/
def tri_items (g : WordGrid) (gram : List Char) :
    List (Int × Int) → Option (List (List Char))
  | [] => some []
  | n2 :: rest => do
    let e2 ← g.get_element n2.1 n2.2
    let tris ← tri_items g gram rest
    some ((gram ++ e2) :: tris)

/-- Outer loop of `WordGrid.get_two_neighbours`: for each first-hop neighbour
`key`, read `get_element(row, col) + get_element(key)` and run the inner loop
over `key`'s neighbours with the origin excluded. -/
def tri_outer (g : WordGrid) (row col : Int) :
    List (Int × Int) → Option (List (List Char))
  | [] => some []
  | n1 :: rest => do
    let e0 ← g.get_element row col
    let e1 ← g.get_element n1.1 n1.2
    let tris ← tri_items g (e0 ++ e1)
      ((g.get_neighbours_index n1.1 n1.2).filter (fun p => decide (p ≠ (row, col))))
    let more ← tri_outer g row col rest
    some (tris ++ more)

/-- Model of `WordGrid.get_two_neighbours` (the returned Python `set` is modelled as
the list of appended 3-grams; only membership is ever observed). -/
def get_two_neighbours (g : WordGrid) (row col : Int) :
    Option (List (List Char)) :=
  tri_outer g row col (g.get_neighbours_index row col)

/-- The cell coordinates `(row, col)` visited by `get_all_threegrams`, in loop
order. -/
def allCells (g : WordGrid) : List (Int × Int) :=
  (List.range g.rows).flatMap (fun r =>
    (List.range g.cols).map (fun c => ((r : Int), (c : Int))))

/-- Loop body of `WordGrid.get_all_threegrams`: extend the accumulated list
with the 3-grams of each visited cell. -/
def gramsOfCells (g : WordGrid) : List (Int × Int) → Option (List (List Char))
  | [] => some []
  | rc :: rest => do
    let grams ← g.get_two_neighbours rc.1 rc.2
    let more ← gramsOfCells g rest
    some (grams ++ more)

/-- Model of `WordGrid.get_all_threegrams`. -/
def get_all_threegrams (g : WordGrid) : Option (List (List Char)) :=
  gramsOfCells g g.allCells

end WordGrid

/-- Model of `check_ngrams_in_word` (src/wordgrid.py:44): every length-`n` slice
`word[i : i+n]` for `i` in `range(len(word) - n + 1)` must lie in `ngramset`. -/
def check_ngrams_in_word (word : List Char) (ngramset : List (List Char))
    (n : Nat) : Bool :=
  (List.range (word.length + 1 - n)).all (fun i =>
    decide ((word.drop i).take n ∈ ngramset))

/-- Model of `check_lettercount_in_word` (src/wordgrid.py:52): for every distinct
letter of `word` (`Counter(word)` iterates each key once, hence `dedup`), the
letter must be present in the budget and its count in the word must not exceed
its budget count. -/
def check_lettercount_in_word (word : List Char) (lettercount : Cell → Nat) :
    Bool :=
  word.dedup.all (fun ch =>
    decide (0 < lettercount [ch]) && decide (word.count ch ≤ lettercount [ch]))

/-- Python `str.strip()`: drop whitespace from both ends. -/
def strip (s : List Char) : List Char :=
  ((s.dropWhile Char.isWhitespace).reverse.dropWhile Char.isWhitespace).reverse

/-- The `for line in fin` loop of `filter_wordlistfile`: strip each line and
keep it when it is longer than 3, fits the letter budget, and all its 3-grams
belong to `threegrams`. -/
def filter_word_loop (lettercount : Cell → Nat) (threegrams : List (List Char)) :
    List (List Char) → List (List Char)
  | [] => []
  | line :: rest =>
    let word := strip line
    if decide (word.length > 3) && check_lettercount_in_word word lettercount then
      if check_ngrams_in_word word threegrams 3 then
        word :: filter_word_loop lettercount threegrams rest
      else filter_word_loop lettercount threegrams rest
    else filter_word_loop lettercount threegrams rest

/-- Model of `filter_wordlistfile` (src/wordgrid.py:245), with the opened file modelled
as its list of lines. -/
def filter_wordlistfile (lines : List (List Char)) (g : WordGrid) :
    Option (List (List Char)) := do
  let lettercount := g.lettercount
  let threegrams ← g.get_all_threegrams
  some (filter_word_loop lettercount threegrams lines)

/-- A concrete fully constructed 2×2 grid containing one gap cell (`' '`),
reachable from `WordGrid.init 2 2` by two row updates. -/
def gapGrid : WordGrid :=
  { grid := [[['a'], [' ']], [['c'], ['d']]], rows := 2, cols := 2 }

/-- The number of backing-array coordinates `(r, c)` whose cell reads back as
`cell` — the per-character cell-count phrasing used by the specification. -/
def positionsHolding (g : WordGrid) (cell : Cell) : Nat :=
  (((List.range g.grid.length).flatMap (fun r =>
      (List.range (g.grid.getD r []).length).map (fun c => (r, c)))).filter
    (fun rc => decide (getCell g.grid (rc.1 : Int) (rc.2 : Int) = some cell))).length

/-- A concrete fully constructed 2×2 grid `"ab"` / `"cd"`. -/
def gA : WordGrid := { grid := [[['a'], ['b']], [['c'], ['d']]], rows := 2, cols := 2 }

/-- The trigram set the code computes for `gA`. -/
def tgA : List (List Char) := gA.get_all_threegrams.getD []

/-- The per-cell trigrams the code computes for `gA` at the origin. -/
def tsA : List (List Char) := (gA.get_two_neighbours 0 0).getD []

/-- Variant of `gA` with the case of a single grid letter changed (`'a'` → `'A'`). -/
def gMixed : WordGrid := { grid := [[['A'], ['b']], [['c'], ['d']]], rows := 2, cols := 2 }

/-- Rename every character of every cell of a grid. -/
def mapGrid (f : Char → Char) (g : WordGrid) : WordGrid :=
  { g with grid := g.grid.map (List.map (List.map f)) }

/-- The acceptance predicate of the filtering pass: strictly longer than 3,
fits the letter budget, and every 3-gram is in the feasible set. -/
def keeps (lettercount : Cell → Nat) (threegrams : List (List Char))
    (w : List Char) : Bool :=
  decide (w.length > 3) && check_lettercount_in_word w lettercount &&
    check_ngrams_in_word w threegrams 3

/-- Chebyshev distance between two cells. -/
def chebyshev (p q : Int × Int) : Nat :=
  max (p.1 - q.1).natAbs (p.2 - q.2).natAbs

/-- A cell lying on both a horizontal and a vertical boundary of the logical
`rows × cols` grid. -/
def isCorner (g : WordGrid) (r c : Int) : Prop :=
  (r = 0 ∨ r = (g.rows : Int) - 1) ∧ (c = 0 ∨ c = (g.cols : Int) - 1)

/-- A boundary cell that is not a corner. -/
def isEdge (g : WordGrid) (r c : Int) : Prop :=
  (r = 0 ∨ r = (g.rows : Int) - 1 ∨ c = 0 ∨ c = (g.cols : Int) - 1) ∧
    ¬ isCorner g r c

/-- A cell all of whose eight surrounding coordinates are inside the logical
grid. -/
def isInterior (g : WordGrid) (r c : Int) : Prop :=
  0 < r ∧ r < (g.rows : Int) - 1 ∧ 0 < c ∧ c < (g.cols : Int) - 1

/-! ### Theorems -/

theorem npIdx_natCast (len r : Nat) (h : r < len) : npIdx len (r : Int) = some r := by
  have h0 : ¬((r : Int) < 0) := by omega
  have h1 : (0 : Int) ≤ (r : Int) := by omega
  have h2 : (r : Int) < (len : Int) := by omega
  simp [npIdx, h0, h1, h2]

theorem npIdx_natCast_ge (len r : Nat) (h : len ≤ r) : npIdx len (r : Int) = none := by
  have h0 : ¬((r : Int) < 0) := by omega
  have h2 : ¬((r : Int) < (len : Int)) := by omega
  simp [npIdx, h0, h2]

/-- Reading the backing array at non-negative coordinates is plain nested
list indexing. -/
theorem getCell_natCast (a : List (List Cell)) (r c : Nat) :
    getCell a (r : Int) (c : Int) = a[r]?.bind (fun rowl => rowl[c]?) := by
  by_cases hr : r < a.length
  · simp only [getCell, Option.bind_eq_bind]
    rw [npIdx_natCast a.length r hr, Option.some_bind]
    cases hrow : a[r]? with
    | none =>
      rw [List.getElem?_eq_getElem hr] at hrow
      exact absurd hrow (by simp)
    | some rowl =>
      simp only [Option.some_bind]
      by_cases hc : c < rowl.length
      · rw [npIdx_natCast rowl.length c hc, Option.some_bind]
      · rw [npIdx_natCast_ge rowl.length c (by omega), Option.none_bind,
          List.getElem?_eq_none (Nat.le_of_not_lt hc)]
  · simp only [getCell, Option.bind_eq_bind]
    rw [npIdx_natCast_ge a.length r (by omega), Option.none_bind,
      List.getElem?_eq_none (Nat.le_of_not_lt hr), Option.none_bind]

theorem count_positions_row (l : List Cell) (cell : Cell) :
    ((List.range l.length).filter (fun c => decide (l[c]? = some cell))).length
      = l.count cell := by
  induction l with
  | nil => rfl
  | cons a tl ih =>
    have hcong : List.filter ((fun c => decide ((a :: tl)[c]? = some cell)) ∘ Nat.succ)
        (List.range tl.length)
        = List.filter (fun c => decide (tl[c]? = some cell)) (List.range tl.length) :=
      List.filter_congr (fun c _ => by
        simp only [Function.comp_apply, Nat.succ_eq_add_one, List.getElem?_cons_succ])
    rw [List.length_cons, List.range_succ_eq_map, List.filter_cons, List.filter_map, hcong,
      List.count_cons]
    by_cases ha : a = cell
    · rw [if_pos (by simp [ha]), if_pos (by simp [ha])]
      rw [List.length_cons, List.length_map, ih]
    · rw [if_neg (by simp [ha]), if_neg (by simp [ha])]
      rw [List.length_map, ih]
      omega

theorem count_positions_aux (a : List (List Cell)) (cell : Cell) :
    (((List.range a.length).flatMap (fun r =>
        (List.range (a.getD r []).length).map (fun c => (r, c)))).filter
      (fun rc => decide (getCell a (rc.1 : Int) (rc.2 : Int) = some cell))).length
      = a.flatten.count cell := by
  induction a with
  | nil => rfl
  | cons row rest ih =>
    rw [List.length_cons, List.range_succ_eq_map, List.flatMap_cons, List.flatMap_map,
      List.filter_append, List.length_append, List.flatten_cons, List.count_append]
    congr 1
    · rw [List.getD_cons_zero, List.filter_map, List.length_map]
      have hcong : List.filter
          ((fun rc : Nat × Nat => decide (getCell (row :: rest) (rc.1 : Int) (rc.2 : Int)
              = some cell)) ∘ fun c => (0, c))
          (List.range row.length)
          = List.filter (fun c => decide (row[c]? = some cell)) (List.range row.length) :=
        List.filter_congr (fun c _ => by
          simp only [Function.comp_apply]
          rw [getCell_natCast, List.getElem?_cons_zero, Option.some_bind])
      rw [hcong, count_positions_row]
    · have hbody : ((List.range rest.length).flatMap fun r =>
            (List.range ((row :: rest).getD (Nat.succ r) []).length).map
              (fun c => (Nat.succ r, c)))
          = ((List.range rest.length).flatMap fun r =>
              (List.range (rest.getD r []).length).map (fun c => (r, c))).map
              (fun rc => (rc.1 + 1, rc.2)) := by
        rw [List.map_flatMap]
        refine List.flatMap_congr ?_
        intro r _
        rw [List.getD_cons_succ, List.map_map]
        rfl
      rw [hbody, List.filter_map, List.length_map]
      have hcong2 : List.filter
          ((fun rc : Nat × Nat => decide (getCell (row :: rest) (rc.1 : Int) (rc.2 : Int)
              = some cell)) ∘ fun rc : Nat × Nat => (rc.1 + 1, rc.2))
          ((List.range rest.length).flatMap fun r =>
            (List.range (rest.getD r []).length).map (fun c => (r, c)))
          = List.filter
            (fun rc : Nat × Nat => decide (getCell rest (rc.1 : Int) (rc.2 : Int) = some cell))
            ((List.range rest.length).flatMap fun r =>
              (List.range (rest.getD r []).length).map (fun c => (r, c))) :=
        List.filter_congr (fun rc _ => by
          simp only [Function.comp_apply]
          rw [getCell_natCast, getCell_natCast, List.getElem?_cons_succ])
      rw [hcong2, ih]

/-- C1: `WordGrid(m, n)` is claimed to produce an `m`-by-`n` grid.  It does
not: `__init__` allocates `np.empty(shape=(n, n))`, so `WordGrid(2, 3)` records
`rows = 2` but its backing array has 3 rows (each of 3 entries). -/
theorem wordgrid_init_allocates_cols_by_cols :
    (WordGrid.init 2 3).rows = 2 ∧ (WordGrid.init 2 3).cols = 3 ∧
      (WordGrid.init 2 3).grid.length = 3 ∧
      (WordGrid.init 2 3).grid.all (fun row => row.length = 3) = true := by
  decide

/-- C2: the pipeline stages are claimed total for every positive `m`, `n`,
including `m ≠ n`.  For `WordGrid(2, 1)` — whether or not its (1×1) backing
array has been populated — `get_all_threegrams` visits logical cell `(1, 0)`
and the numpy access `grid[1, 0]` raises an `IndexError` (`none`). -/
theorem get_all_threegrams_errors_when_rows_exceed_cols :
    (WordGrid.init 2 1).get_all_threegrams = none ∧
      (WordGrid.mk [[['a']]] 2 1).get_all_threegrams = none := by
  decide

/-- C3: row assignment is claimed to succeed iff the string length equals
`cols`.  The guard in `update_gridline_from_string` compares against
`self.rows` instead: on `WordGrid(2, 3)` the string `"abc"` (length = cols)
is rejected with the grid unchanged, the string `"ab"` (length = rows) passes
the guard and then raises an uncaught `ValueError` in the numpy assignment,
and on `WordGrid(1, 3)` the string `"a"` passes the guard and is silently
broadcast-padded across the whole first array row. -/
theorem update_gridline_guard_compares_rows :
    WordGrid.update_gridline_from_string (WordGrid.init 2 3) 0 ['a', 'b', 'c'] =
        some (WordGrid.init 2 3) ∧
      WordGrid.update_gridline_from_string (WordGrid.init 2 3) 0 ['a', 'b'] = none ∧
      WordGrid.update_gridline_from_string (WordGrid.init 1 3) 0 ['a'] =
        some (WordGrid.mk
          [[['a'], ['a'], ['a']], [[], [], []], [[], [], []]] 1 3) := by
  decide

/-- C5 counterexample: `lettercount` is `Counter(self.grid.flatten())`, which
counts every cell, gaps included.  In the reachable 2×2 grid `"a "` / `"cd"`
the gap marker `' '` receives the budget entry 1, while the number of non-gap
cells holding `' '` is 0. -/
theorem lettercount_counts_gap_cells :
    ((WordGrid.init 2 2).update_gridline_from_string 0 ['a', ' ']).bind
        (fun g => g.update_gridline_from_string 1 ['c', 'd']) = some gapGrid ∧
      gapGrid.lettercount [' '] = 1 := by
  decide

/-- C5 amended: `lettercount()` maps each character to the number of all
backing-array cells holding it — gap cells included, so the gap marker does
receive a budget entry when gaps are present. -/
theorem lettercount_eq_positionsHolding (g : WordGrid) (cell : Cell) :
    g.lettercount cell = positionsHolding g cell :=
  (count_positions_aux g.grid cell).symm

/-- C9: the letter-budget check is monotone in the budget — pointwise larger
budgets accept every word the smaller budget accepts. -/
theorem check_lettercount_in_word_monotone (word : List Char)
    (B B' : Cell → Nat) (hle : ∀ s, B s ≤ B' s)
    (h : check_lettercount_in_word word B = true) :
    check_lettercount_in_word word B' = true := by
  simp only [check_lettercount_in_word, List.all_eq_true] at h ⊢
  intro ch hch
  have h' := h ch hch
  simp only [Bool.and_eq_true, decide_eq_true_eq] at h' ⊢
  exact ⟨lt_of_lt_of_le h'.1 (hle [ch]), le_trans h'.2 (hle [ch])⟩

theorem check_lettercount_in_word_monotone_witness :
    (∀ s : Cell, (fun _ : Cell => 1) s ≤ (fun _ : Cell => 2) s) ∧
      check_lettercount_in_word ['a'] (fun _ : Cell => 1) = true ∧
      check_lettercount_in_word ['a'] (fun _ : Cell => 2) = true :=
  ⟨fun _ => one_le_two, by decide,
    check_lettercount_in_word_monotone ['a'] (fun _ => 1) (fun _ => 2)
      (fun _ => one_le_two) (by decide)⟩

/-- C10: for a word shorter than `n`, `check_ngrams_in_word` inspects no
substring at all (`range(len(word) - n + 1)` is empty) and returns `True`
for every ngram set, the empty one included. -/
theorem check_ngrams_in_word_vacuous_below_n (word : List Char)
    (ngramset : List (List Char)) (n : Nat) (h : word.length < n) :
    check_ngrams_in_word word ngramset n = true := by
  unfold check_ngrams_in_word
  have hz : word.length + 1 - n = 0 := by omega
  rw [hz]
  rfl

theorem check_ngrams_in_word_vacuous_below_n_witness :
    ['a', 'b'].length < 3 ∧ check_ngrams_in_word ['a', 'b'] [] 3 = true :=
  ⟨by decide, check_ngrams_in_word_vacuous_below_n ['a', 'b'] [] 3 (by decide)⟩

/-- The word-list loop is a filter of the stripped lines. -/
theorem filter_word_loop_eq_filter (lc : Cell → Nat) (tg : List (List Char))
    (lines : List (List Char)) :
    filter_word_loop lc tg lines = (lines.map strip).filter (keeps lc tg) := by
  induction lines with
  | nil => rfl
  | cons line rest ih =>
    simp only [filter_word_loop]
    cases h1 : decide ((strip line).length > 3) &&
        check_lettercount_in_word (strip line) lc with
    | false => simp [h1, keeps, ih]
    | true =>
      cases h2 : check_ngrams_in_word (strip line) tg 3 with
      | false => simp [h1, h2, keeps, ih]
      | true => simp [h1, h2, keeps, ih]

/-- C6: whenever the trigram stage succeeds, the filtering pass returns
exactly the stripped input words that are longer than 3 and pass the
letter-budget and trigram-containment checks, as a subsequence (hence in the
original order) of the stripped input stream. -/
theorem filter_wordlistfile_spec (lines : List (List Char)) (g : WordGrid)
    (tg : List (List Char)) (h : g.get_all_threegrams = some tg) :
    filter_wordlistfile lines g =
        some ((lines.map strip).filter (keeps g.lettercount tg)) ∧
      ((lines.map strip).filter (keeps g.lettercount tg)).Sublist (lines.map strip) ∧
      ∀ w, w ∈ (lines.map strip).filter (keeps g.lettercount tg) ↔
        w ∈ lines.map strip ∧ w.length > 3 ∧
          check_lettercount_in_word w g.lettercount = true ∧
          check_ngrams_in_word w tg 3 = true := by
  refine ⟨?_, List.filter_sublist _, ?_⟩
  · simp only [filter_wordlistfile, h, Option.bind_eq_bind, Option.some_bind]
    rw [filter_word_loop_eq_filter]
  · intro w
    simp only [List.mem_filter, keeps, Bool.and_eq_true, decide_eq_true_eq]
    tauto

theorem filter_wordlistfile_spec_witness :
    gA.get_all_threegrams = some tgA ∧
      filter_wordlistfile [['a', 'b', 'c', 'd'], ['a', 'a', 'a', 'b']] gA =
        some [['a', 'b', 'c', 'd']] := by
  refine ⟨rfl, ?_⟩
  rw [(filter_wordlistfile_spec [['a', 'b', 'c', 'd'], ['a', 'a', 'a', 'b']] gA tgA rfl).1]
  decide

/-- C4 counterexample: no case folding happens anywhere in the pipeline.
`gMixed` differs from `gA` only in the case of one grid letter, yet the
lower-case dictionary word `"abcd"` is accepted on `gA` and rejected on
`gMixed` (its letter `'a'` no longer has a budget entry). -/
theorem filter_wordlistfile_case_sensitive :
    filter_wordlistfile [['a', 'b', 'c', 'd']] gA = some [['a', 'b', 'c', 'd']] ∧
      filter_wordlistfile [['a', 'b', 'c', 'd']] gMixed = some [] := by
  decide

theorem getCell_map (f : Char → Char) (a : List (List Cell)) (r c : Int) :
    getCell (a.map (List.map (List.map f))) r c
      = (getCell a r c).map (List.map f) := by
  simp only [getCell, Option.bind_eq_bind, List.length_map]
  cases npIdx a.length r with
  | none => rfl
  | some r' =>
    simp only [Option.some_bind, List.getElem?_map]
    cases a[r']? with
    | none => rfl
    | some rowl =>
      simp only [Option.map_some', Option.some_bind, List.length_map]
      cases npIdx rowl.length c with
      | none => rfl
      | some c' => simp only [Option.some_bind, List.getElem?_map]

theorem get_element_map (f : Char → Char) (g : WordGrid) (r c : Int) :
    (mapGrid f g).get_element r c = (g.get_element r c).map (List.map f) :=
  getCell_map f g.grid r c

theorem get_neighbours_index_map (f : Char → Char) (g : WordGrid) (r c : Int) :
    (mapGrid f g).get_neighbours_index r c = g.get_neighbours_index r c := rfl

theorem tri_items_map (f : Char → Char) (g : WordGrid) (gram : List Char)
    (l : List (Int × Int)) :
    WordGrid.tri_items (mapGrid f g) (gram.map f) l
      = (WordGrid.tri_items g gram l).map (List.map (List.map f)) := by
  induction l with
  | nil => rfl
  | cons n2 rest ih =>
    simp only [WordGrid.tri_items, Option.bind_eq_bind, get_element_map]
    cases g.get_element n2.1 n2.2 with
    | none => rfl
    | some e2 =>
      simp only [Option.map_some', Option.some_bind, ih]
      cases WordGrid.tri_items g gram rest with
      | none => rfl
      | some tris =>
        simp only [Option.map_some', Option.some_bind, List.map_cons, List.map_append]

theorem tri_outer_map (f : Char → Char) (g : WordGrid) (row col : Int)
    (l : List (Int × Int)) :
    WordGrid.tri_outer (mapGrid f g) row col l
      = (WordGrid.tri_outer g row col l).map (List.map (List.map f)) := by
  induction l with
  | nil => rfl
  | cons n1 rest ih =>
    simp only [WordGrid.tri_outer, Option.bind_eq_bind, get_element_map,
      get_neighbours_index_map]
    cases g.get_element row col with
    | none => rfl
    | some e0 =>
      simp only [Option.map_some', Option.some_bind]
      cases g.get_element n1.1 n1.2 with
      | none => rfl
      | some e1 =>
        simp only [Option.map_some', Option.some_bind, ← List.map_append, tri_items_map]
        cases WordGrid.tri_items g (e0 ++ e1)
            ((g.get_neighbours_index n1.1 n1.2).filter
              (fun p => decide (p ≠ (row, col)))) with
        | none => rfl
        | some tris =>
          simp only [Option.map_some', Option.some_bind, ih]
          cases WordGrid.tri_outer g row col rest with
          | none => rfl
          | some more =>
            simp only [Option.map_some', Option.some_bind, List.map_append]

theorem get_two_neighbours_map (f : Char → Char) (g : WordGrid) (row col : Int) :
    (mapGrid f g).get_two_neighbours row col
      = (g.get_two_neighbours row col).map (List.map (List.map f)) := by
  simp only [WordGrid.get_two_neighbours, get_neighbours_index_map, tri_outer_map]

theorem gramsOfCells_map (f : Char → Char) (g : WordGrid) (l : List (Int × Int)) :
    WordGrid.gramsOfCells (mapGrid f g) l
      = (WordGrid.gramsOfCells g l).map (List.map (List.map f)) := by
  induction l with
  | nil => rfl
  | cons rc rest ih =>
    simp only [WordGrid.gramsOfCells, Option.bind_eq_bind, get_two_neighbours_map]
    cases g.get_two_neighbours rc.1 rc.2 with
    | none => rfl
    | some grams =>
      simp only [Option.map_some', Option.some_bind, ih]
      cases WordGrid.gramsOfCells g rest with
      | none => rfl
      | some more =>
        simp only [Option.map_some', Option.some_bind, List.map_append]

theorem get_all_threegrams_map (f : Char → Char) (g : WordGrid) :
    (mapGrid f g).get_all_threegrams
      = g.get_all_threegrams.map (List.map (List.map f)) := by
  simp only [WordGrid.get_all_threegrams]
  exact gramsOfCells_map f g g.allCells

theorem count_map_inj {α β : Type} [BEq α] [LawfulBEq α] [BEq β] [LawfulBEq β]
    (l : List α) (f : α → β) (hinj : Function.Injective f) (x : α) :
    (l.map f).count (f x) = l.count x := by
  induction l with
  | nil => rfl
  | cons a tl ih =>
    simp only [List.map_cons, List.count_cons, ih]
    congr 1
    by_cases h : a = x
    · simp [h]
    · have hf : ¬(f a = f x) := fun hc => h (hinj hc)
      simp [h, hf]

theorem lettercount_map (f : Char → Char) (hinj : Function.Injective f)
    (g : WordGrid) (ch : Char) :
    (mapGrid f g).lettercount [f ch] = g.lettercount [ch] := by
  show ((g.grid.map (List.map (List.map f))).flatten).count [f ch]
      = g.grid.flatten.count [ch]
  rw [← List.map_flatten]
  exact count_map_inj g.grid.flatten (List.map f)
    (List.map_injective_iff.mpr hinj) [ch]

theorem check_lettercount_map (f : Char → Char) (hinj : Function.Injective f)
    (g : WordGrid) (w : List Char) :
    check_lettercount_in_word (w.map f) (mapGrid f g).lettercount
      = check_lettercount_in_word w g.lettercount := by
  rw [Bool.eq_iff_iff]
  simp only [check_lettercount_in_word, List.all_eq_true, Bool.and_eq_true,
    decide_eq_true_eq]
  constructor
  · intro h ch hch
    have h' := h (f ch)
      (List.mem_dedup.mpr (List.mem_map_of_mem f (List.mem_dedup.mp hch)))
    rwa [lettercount_map f hinj, List.count_map_of_injective _ f hinj] at h'
  · intro h ch hch
    obtain ⟨ch', hch', rfl⟩ := List.mem_map.mp (List.mem_dedup.mp hch)
    have h' := h ch' (List.mem_dedup.mpr hch')
    rw [lettercount_map f hinj, List.count_map_of_injective _ f hinj]
    exact h'

theorem check_ngrams_map (f : Char → Char) (hinj : Function.Injective f)
    (w : List Char) (tg : List (List Char)) (n : Nat) :
    check_ngrams_in_word (w.map f) (tg.map (List.map f)) n
      = check_ngrams_in_word w tg n := by
  rw [Bool.eq_iff_iff]
  simp only [check_ngrams_in_word, List.all_eq_true, List.length_map,
    decide_eq_true_eq]
  have hslice : ∀ i, ((w.map f).drop i).take n = ((w.drop i).take n).map f := by
    intro i
    rw [← List.map_drop, ← List.map_take]
  have hmem : ∀ s : List Char, s.map f ∈ tg.map (List.map f) ↔ s ∈ tg :=
    fun s => List.mem_map_of_injective (List.map_injective_iff.mpr hinj)
  constructor
  · intro h i hi
    have h' := h i hi
    rwa [hslice i, hmem] at h'
  · intro h i hi
    rw [hslice i, hmem]
    exact h i hi

theorem strip_map (f : Char → Char)
    (hws : ∀ ch, (f ch).isWhitespace = ch.isWhitespace) (s : List Char) :
    strip (s.map f) = (strip s).map f := by
  have hpred : (Char.isWhitespace ∘ f) = Char.isWhitespace := funext hws
  simp only [strip, List.dropWhile_map, hpred, ← List.map_reverse]

theorem filter_word_loop_map (f : Char → Char) (hinj : Function.Injective f)
    (hws : ∀ ch, (f ch).isWhitespace = ch.isWhitespace)
    (g : WordGrid) (tg : List (List Char)) (lines : List (List Char)) :
    filter_word_loop (mapGrid f g).lettercount (tg.map (List.map f))
        (lines.map (List.map f))
      = (filter_word_loop g.lettercount tg lines).map (List.map f) := by
  rw [filter_word_loop_eq_filter, filter_word_loop_eq_filter]
  have hstrip : (lines.map (List.map f)).map strip
      = (lines.map strip).map (List.map f) := by
    rw [List.map_map, List.map_map]
    exact List.map_congr_left (fun l _ => strip_map f hws l)
  rw [hstrip, List.filter_map]
  refine congrArg (List.map (List.map f)) (List.filter_congr (fun w _ => ?_))
  simp only [Function.comp_apply, keeps, List.length_map,
    check_lettercount_map f hinj, check_ngrams_map f hinj]

/-- C4 amended: the pipeline folds no case; acceptance depends only on the
exact characters.  Renaming characters by any injective, whitespace-class
preserving map — applied to both the grid and the dictionary — preserves
every acceptance decision, while changing the case of a single side can flip
decisions (see the counterexample). -/
theorem filter_wordlistfile_map_injective (f : Char → Char)
    (hinj : Function.Injective f)
    (hws : ∀ ch, (f ch).isWhitespace = ch.isWhitespace)
    (lines : List (List Char)) (g : WordGrid) :
    filter_wordlistfile (lines.map (List.map f)) (mapGrid f g)
      = (filter_wordlistfile lines g).map (List.map (List.map f)) := by
  simp only [filter_wordlistfile, Option.bind_eq_bind, get_all_threegrams_map]
  cases g.get_all_threegrams with
  | none => rfl
  | some tg =>
    simp only [Option.map_some', Option.some_bind,
      filter_word_loop_map f hinj hws]

theorem filter_wordlistfile_map_injective_witness :
    Function.Injective (fun ch : Char => ch) ∧
      filter_wordlistfile ([['a', 'b', 'c', 'd']].map (List.map (fun ch : Char => ch)))
          (mapGrid (fun ch => ch) gA)
        = (filter_wordlistfile [['a', 'b', 'c', 'd']] gA).map
            (List.map (List.map (fun ch : Char => ch))) :=
  ⟨fun _ _ h => h,
    filter_wordlistfile_map_injective (fun ch => ch) (fun _ _ h => h) (fun _ => rfl)
      [['a', 'b', 'c', 'd']] gA⟩

/-- Every 3-gram produced by the inner loop of `get_two_neighbours` is the
prefix `gram` extended by the letter of some listed second-hop cell. -/
theorem tri_items_sound (g : WordGrid) (gram : List Char) (l : List (Int × Int))
    (ts : List (List Char)) (t : List Char)
    (h : WordGrid.tri_items g gram l = some ts) (ht : t ∈ ts) :
    ∃ n2 ∈ l, ∃ e2, g.get_element n2.1 n2.2 = some e2 ∧ t = gram ++ e2 := by
  induction l generalizing ts with
  | nil =>
    simp only [WordGrid.tri_items, Option.some.injEq] at h
    subst h
    exact (List.not_mem_nil t ht).elim
  | cons n2 rest ih =>
    simp only [WordGrid.tri_items, Option.bind_eq_bind, Option.bind_eq_some,
      Option.some.injEq] at h
    obtain ⟨e2, he2, tris, htris, hts⟩ := h
    subst hts
    rcases List.mem_cons.mp ht with hteq | hmem
    · exact ⟨n2, List.mem_cons_self n2 rest, e2, he2, hteq⟩
    · obtain ⟨n2', hn2', e2', he2', hteq'⟩ := ih tris htris hmem
      exact ⟨n2', List.mem_cons_of_mem n2 hn2', e2', he2', hteq'⟩

/-- Every 3-gram produced by the outer loop of `get_two_neighbours` comes from
a listed first-hop neighbour and a second-hop neighbour distinct from the
origin, and is the concatenation of the three cells read by the code. -/
theorem tri_outer_sound (g : WordGrid) (row col : Int) (l : List (Int × Int))
    (ts : List (List Char)) (t : List Char)
    (h : WordGrid.tri_outer g row col l = some ts) (ht : t ∈ ts) :
    ∃ n1 ∈ l, ∃ n2 ∈ g.get_neighbours_index n1.1 n1.2, n2 ≠ (row, col) ∧
      ∃ e0 e1 e2, g.get_element row col = some e0 ∧
        g.get_element n1.1 n1.2 = some e1 ∧
        g.get_element n2.1 n2.2 = some e2 ∧ t = e0 ++ e1 ++ e2 := by
  induction l generalizing ts with
  | nil =>
    simp only [WordGrid.tri_outer, Option.some.injEq] at h
    subst h
    exact (List.not_mem_nil t ht).elim
  | cons n1 rest ih =>
    simp only [WordGrid.tri_outer, Option.bind_eq_bind, Option.bind_eq_some,
      Option.some.injEq] at h
    obtain ⟨e0, he0, e1, he1, tris, htris, more, hmore, hts⟩ := h
    subst hts
    rcases List.mem_append.mp ht with hmem | hmem
    · obtain ⟨n2, hn2mem, e2, he2, hteq⟩ := tri_items_sound g (e0 ++ e1) _ tris t htris hmem
      have hsplit := List.mem_filter.mp hn2mem
      refine ⟨n1, List.mem_cons_self n1 rest, n2, hsplit.1, ?_, e0, e1, e2, he0, he1, he2, hteq⟩
      simpa using hsplit.2
    · obtain ⟨n1', hn1', rest'⟩ := ih more hmore hmem
      exact ⟨n1', List.mem_cons_of_mem n1 hn1', rest'⟩

/-- A successfully read cell is a cell of the backing array. -/
theorem get_element_mem (g : WordGrid) (r c : Int) (e : Cell)
    (h : g.get_element r c = some e) : ∃ rowl ∈ g.grid, e ∈ rowl := by
  simp only [WordGrid.get_element, getCell, Option.bind_eq_bind, Option.bind_eq_some] at h
  obtain ⟨r', _, rowl, hrowl, c', _, he⟩ := h
  exact ⟨rowl, List.getElem?_mem hrowl, List.getElem?_mem he⟩

/-- C8: on a grid whose cells each hold one character, every trigram emitted
by `get_two_neighbours(r, c)` starts with the letter at `(r, c)`, continues
with the letter of some neighbour `n1` of `(r, c)`, and ends with the letter
of some neighbour `n2` of `n1` with `n2 ≠ (r, c)`. -/
theorem get_two_neighbours_structure (g : WordGrid) (r c : Int)
    (ts : List (List Char)) (t : List Char)
    (hcells : ∀ row ∈ g.grid, ∀ cell ∈ row, cell.length = 1)
    (h : g.get_two_neighbours r c = some ts) (ht : t ∈ ts) :
    ∃ n1 ∈ g.get_neighbours_index r c, ∃ n2 ∈ g.get_neighbours_index n1.1 n1.2,
      n2 ≠ (r, c) ∧
      ∃ a b d : Char, g.get_element r c = some [a] ∧
        g.get_element n1.1 n1.2 = some [b] ∧
        g.get_element n2.1 n2.2 = some [d] ∧ t = [a, b, d] := by
  obtain ⟨n1, hn1, n2, hn2, hne, e0, e1, e2, he0, he1, he2, hteq⟩ :=
    tri_outer_sound g r c _ ts t h ht
  have hsing : ∀ {rr cc : Int} {e : Cell}, g.get_element rr cc = some e → ∃ ch, e = [ch] := by
    intro rr cc e he
    obtain ⟨rowl, hrowl, hmem⟩ := get_element_mem g rr cc e he
    exact List.length_eq_one.mp (hcells rowl hrowl e hmem)
  obtain ⟨a, ha⟩ := hsing he0
  obtain ⟨b, hb⟩ := hsing he1
  obtain ⟨d, hd⟩ := hsing he2
  subst ha hb hd
  exact ⟨n1, hn1, n2, hn2, hne, a, b, d, he0, he1, he2, by simpa using hteq⟩

/-- Membership in `get_neighbours_index(r, c)`: exactly the valid cells at
Chebyshev distance 1 from `(r, c)`. -/
theorem mem_get_neighbours_index (g : WordGrid) (r c : Int) (p : Int × Int) :
    p ∈ g.get_neighbours_index r c
      ↔ g.is_valid_index p.1 p.2 = true ∧ chebyshev (r, c) p = 1 := by
  simp only [WordGrid.get_neighbours_index, List.mem_flatten, List.mem_map,
    exists_exists_and_eq_and, List.mem_filterMap, List.mem_cons,
    List.not_mem_nil, or_false]
  constructor
  · rintro ⟨i, hi, j, hj, hcond⟩
    split_ifs at hcond with hcnd
    · obtain ⟨hval, hne⟩ := hcnd
      injection hcond with hp
      subst hp
      refine ⟨hval, ?_⟩
      simp only [chebyshev]
      omega
  · rintro ⟨hvp, hcheb⟩
    simp only [chebyshev] at hcheb
    refine ⟨p.1 - r, by omega, p.2 - c, by omega, ?_⟩
    have e1 : r + (p.1 - r) = p.1 := by ring
    have e2 : c + (p.2 - c) = p.2 := by ring
    rw [e1, e2, if_pos ⟨hvp, by omega⟩]

theorem length_filterMap_cons {α β : Type} (f : α → Option β) (a : α)
    (l : List α) :
    (List.filterMap f (a :: l)).length
      = (if (f a).isSome then 1 else 0) + (List.filterMap f l).length := by
  cases h : f a <;> simp [List.filterMap_cons, h, Nat.add_comm]

theorem ite_isSome_prop {β : Type} (P : Prop) [Decidable P] (x : β) :
    ((if P then some x else none).isSome = true) = P := by
  by_cases h : P <;> simp [h]

theorem corner_neighbours_length (g : WordGrid) (r c : Int)
    (hv : g.is_valid_index r c = true) (hm : 2 ≤ g.rows) (hn : 2 ≤ g.cols)
    (hpos : isCorner g r c) :
    (g.get_neighbours_index r c).length = 3 := by
  simp only [WordGrid.is_valid_index, decide_eq_true_eq] at hv
  simp only [isCorner] at hpos
  simp only [WordGrid.get_neighbours_index, WordGrid.is_valid_index,
    List.map_cons, List.map_nil, List.flatten_cons, List.flatten_nil,
    List.length_append, List.length_nil,
    length_filterMap_cons, List.filterMap_nil, ite_isSome_prop,
    decide_eq_true_eq]
  obtain ⟨hr | hr, hc | hc⟩ := hpos
  · rw [if_neg (by omega), if_neg (by omega), if_neg (by omega), if_neg (by omega),
      if_neg (by simp), if_pos (by omega), if_neg (by omega),
      if_pos (by omega), if_pos (by omega)]
  · rw [if_neg (by omega), if_neg (by omega), if_neg (by omega), if_pos (by omega),
      if_neg (by simp), if_neg (by omega), if_pos (by omega),
      if_pos (by omega), if_neg (by omega)]
  · rw [if_neg (by omega), if_pos (by omega), if_pos (by omega), if_neg (by omega),
      if_neg (by simp), if_pos (by omega), if_neg (by omega),
      if_neg (by omega), if_neg (by omega)]
  · rw [if_pos (by omega), if_pos (by omega), if_neg (by omega), if_pos (by omega),
      if_neg (by simp), if_neg (by omega), if_neg (by omega),
      if_neg (by omega), if_neg (by omega)]

theorem edge_neighbours_length (g : WordGrid) (r c : Int)
    (hv : g.is_valid_index r c = true) (hm : 2 ≤ g.rows) (hn : 2 ≤ g.cols)
    (hpos : isEdge g r c) :
    (g.get_neighbours_index r c).length = 5 := by
  simp only [WordGrid.is_valid_index, decide_eq_true_eq] at hv
  simp only [isEdge, isCorner] at hpos
  obtain ⟨hb, hnc⟩ := hpos
  simp only [WordGrid.get_neighbours_index, WordGrid.is_valid_index,
    List.map_cons, List.map_nil, List.flatten_cons, List.flatten_nil,
    List.length_append, List.length_nil,
    length_filterMap_cons, List.filterMap_nil, ite_isSome_prop,
    decide_eq_true_eq]
  obtain hr | hr | hc | hc := hb
  · rw [if_neg (by omega), if_neg (by omega), if_neg (by omega), if_pos (by omega),
      if_neg (by simp), if_pos (by omega), if_pos (by omega),
      if_pos (by omega), if_pos (by omega)]
  · rw [if_pos (by omega), if_pos (by omega), if_pos (by omega), if_pos (by omega),
      if_neg (by simp), if_pos (by omega), if_neg (by omega),
      if_neg (by omega), if_neg (by omega)]
  · rw [if_neg (by omega), if_pos (by omega), if_pos (by omega), if_neg (by omega),
      if_neg (by simp), if_pos (by omega), if_neg (by omega),
      if_pos (by omega), if_pos (by omega)]
  · rw [if_pos (by omega), if_pos (by omega), if_neg (by omega), if_pos (by omega),
      if_neg (by simp), if_neg (by omega), if_pos (by omega),
      if_pos (by omega), if_neg (by omega)]

theorem interior_neighbours_length (g : WordGrid) (r c : Int)
    (_hv : g.is_valid_index r c = true) (hpos : isInterior g r c) :
    (g.get_neighbours_index r c).length = 8 := by
  simp only [isInterior] at hpos
  simp only [WordGrid.get_neighbours_index, WordGrid.is_valid_index,
    List.map_cons, List.map_nil, List.flatten_cons, List.flatten_nil,
    List.length_append, List.length_nil,
    length_filterMap_cons, List.filterMap_nil, ite_isSome_prop,
    decide_eq_true_eq]
  rw [if_pos (by omega), if_pos (by omega), if_pos (by omega), if_pos (by omega),
    if_neg (by simp), if_pos (by omega), if_pos (by omega),
    if_pos (by omega), if_pos (by omega)]

/-- C7 counterexample: in the 1×1 grid the single cell is in bounds and is a
corner, yet it has 0 neighbours rather than the claimed 3 or 5. -/
theorem neighbours_of_corner_fail_on_1x1 :
    (WordGrid.init 1 1).is_valid_index 0 0 = true ∧
      isCorner (WordGrid.init 1 1) 0 0 ∧
      (WordGrid.init 1 1).get_neighbours_index 0 0 = [] := by
  refine ⟨by decide, ⟨?_, ?_⟩, by decide⟩ <;> decide

/-- C7 amended: `get_neighbours_index(r, c)` returns exactly the in-bounds
cells at Chebyshev distance 1 from `(r, c)`; in grids with at least two rows
and two columns, corners have 3 neighbours, edge cells 5, and interior cells
8 (degenerate 1-row or 1-column grids — see the counterexample — have fewer). -/
theorem get_neighbours_index_spec (g : WordGrid) (r c : Int)
    (hv : g.is_valid_index r c = true) :
    (∀ p : Int × Int, p ∈ g.get_neighbours_index r c ↔
        g.is_valid_index p.1 p.2 = true ∧ chebyshev (r, c) p = 1) ∧
      (2 ≤ g.rows → 2 ≤ g.cols →
        (isCorner g r c → (g.get_neighbours_index r c).length = 3) ∧
        (isEdge g r c → (g.get_neighbours_index r c).length = 5) ∧
        (isInterior g r c → (g.get_neighbours_index r c).length = 8)) :=
  ⟨fun p => mem_get_neighbours_index g r c p,
    fun hm hn =>
      ⟨fun h => corner_neighbours_length g r c hv hm hn h,
        fun h => edge_neighbours_length g r c hv hm hn h,
        fun h => interior_neighbours_length g r c hv h⟩⟩

theorem get_neighbours_index_spec_witness :
    (WordGrid.init 4 4).is_valid_index 1 1 = true ∧
      isInterior (WordGrid.init 4 4) 1 1 ∧
      ((WordGrid.init 4 4).get_neighbours_index 1 1).length = 8 :=
  ⟨by decide, ⟨by decide, by decide, by decide, by decide⟩,
    ((get_neighbours_index_spec (WordGrid.init 4 4) 1 1 (by decide)).2 (by decide)
      (by decide)).2.2 ⟨by decide, by decide, by decide, by decide⟩⟩

theorem get_two_neighbours_structure_witness :
    (∀ row ∈ gA.grid, ∀ cell ∈ row, cell.length = 1) ∧
      gA.get_two_neighbours 0 0 = some tsA ∧ ['a', 'b', 'c'] ∈ tsA ∧
      (∃ n1 ∈ gA.get_neighbours_index 0 0,
        ∃ n2 ∈ gA.get_neighbours_index n1.1 n1.2, n2 ≠ ((0 : Int), (0 : Int)) ∧
          ∃ a b d : Char, gA.get_element 0 0 = some [a] ∧
            gA.get_element n1.1 n1.2 = some [b] ∧
            gA.get_element n2.1 n2.2 = some [d] ∧ ['a', 'b', 'c'] = [a, b, d]) :=
  ⟨by decide, rfl, by decide,
    get_two_neighbours_structure gA 0 0 tsA ['a', 'b', 'c'] (by decide) rfl (by decide)⟩
